import Mathlib

/-!
Verification of the PinPoint-video extraction pipeline.

This file gives a shallow embedding of the core of the pipeline:
the `TimeRange` value type (`src/domain/entities.py`, `src/domain/time_utils.py`),
the Gemini text-model adapters for query fan-out and title filtering
(`src/infrastructure/gemini_llm_client.py`), the multi-strategy YouTube search
(`src/infrastructure/youtube_data_api.py`), clip validation and concatenation
(`src/infrastructure/ytdlp_extractor.py`), and the orchestrating use case
(`src/application/usecases/extract_segments.py`).

Conventions of the embedding:
* Python floats carrying seconds / confidences are modelled as `ℚ`.
* A Python function that can raise is modelled as returning `Except String _`,
  the error string mirroring the raised exception message.
* External effects (model calls, JSON decoding of model responses,
  subprocesses, the filesystem, thread completion order) are inputs of the
  embedded functions: each embedded function takes the outcomes of its
  external calls as an explicit environment and computes exactly what the
  Python control flow computes from those outcomes.
* Log statements, progress `step`/`details` payload strings and wall-clock
  measurements are elided; the numeric progress values and phase tags of
  every emitted progress event are modelled exactly.
-/

namespace PinPoint

/-! ## Time arithmetic (`src/domain/entities.py`, `src/domain/time_utils.py`) -/

/-- Dataclass `TimeRange`: a half-open time range in seconds. -/
structure TimeRange where
  start_sec : ℚ
  end_sec : ℚ
  deriving DecidableEq, Repr

/-- The invariant enforced by `TimeRange.__post_init__`: construction succeeds
exactly when `start_sec ≥ 0` and `end_sec > start_sec`. -/
def TimeRange.Valid (t : TimeRange) : Prop :=
  0 ≤ t.start_sec ∧ t.start_sec < t.end_sec

instance (t : TimeRange) : Decidable t.Valid :=
  inferInstanceAs (Decidable (_ ∧ _))

/-- Constructor `TimeRange(start_sec, end_sec)` together with
`__post_init__`, which raises `ValueError` on an invalid range. -/
def mkTimeRange (s e : ℚ) : Except String TimeRange :=
  if s < 0 then Except.error "start_sec must be non-negative"
  else if e ≤ s then Except.error "end_sec must be greater than start_sec"
  else Except.ok ⟨s, e⟩

/-- Property `TimeRange.duration_sec`. -/
def TimeRange.duration_sec (t : TimeRange) : ℚ :=
  t.end_sec - t.start_sec

/-- Method `TimeRange.with_buffer(buffer_ratio)`: expand the range on each side
by `duration_sec * buffer_ratio`, clamping the new start at zero; the result
goes through the validating constructor. -/
def TimeRange.with_buffer (t : TimeRange) (r : ℚ) : Except String TimeRange :=
  let buffer_sec := t.duration_sec * r
  let new_start := max 0 (t.start_sec - buffer_sec)
  let new_end := t.end_sec + buffer_sec
  mkTimeRange new_start new_end

/-- Function `convert_relative_to_absolute(clip_start_sec, relative_range)`
from `src/domain/time_utils.py`; the result goes through the validating
constructor. -/
def convert_relative_to_absolute (clip_start_sec : ℚ) (relative_range : TimeRange) :
    Except String TimeRange :=
  mkTimeRange (clip_start_sec + relative_range.start_sec)
    (clip_start_sec + relative_range.end_sec)

/-! ## Entities (`src/domain/entities.py`, application interfaces) -/

/-- Dataclass `Video`: YouTube video metadata. -/
structure Video where
  video_id : String
  title : String
  channel_name : String
  duration_sec : Int
  published_at : String
  thumbnail_url : String
  deriving DecidableEq, Repr

/-- Dataclass `VideoSegment`. -/
structure VideoSegment where
  video : Video
  time_range : TimeRange
  summary : String
  confidence : ℚ
  deriving DecidableEq, Repr

/-- Dataclass `SearchQueryVariants` from
`src/application/interfaces/llm_client.py`. -/
structure SearchQueryVariants where
  original : String
  optimized : String
  simplified : String
  deriving DecidableEq, Repr

/-- One `(Video, TimeRange, confidence, summary)` tuple as produced by the
transcript stage of `ExtractSegmentsUseCase` and consumed by the refinement
stage. -/
structure Candidate where
  video : Video
  range : TimeRange
  confidence : ℚ
  summary : String
  deriving DecidableEq, Repr

/-- Dataclass `ExtractSegmentsConfig` with its default values. -/
structure ExtractSegmentsConfig where
  max_search_results : Nat := 30
  max_final_results : Nat := 5
  buffer_ratio : ℚ := 0.2
  min_confidence : ℚ := 0.3
  enable_vlm_refinement : Bool := true
  duration_min_sec : Int := 60
  duration_max_sec : Int := 7200
  enable_youtube_url_fallback : Bool := true
  youtube_url_fallback_max_duration : Int := 1200
  deriving Repr

/-! ## Query fan-out (`GeminiLLMClient.generate_search_queries`) -/

/-- Outcome of the single text-model call in `generate_search_queries`,
including the decoding of the response text by the external `json` library:
either the call (or any step outside JSON parsing) raises, or the response
text fails JSON parsing with `json.JSONDecodeError`, or it parses to a JSON
object whose `optimized` / `simplified` keys may each be present or absent. -/
inductive FanoutResponse
  | raises (msg : String)
  | parseFails
  | parsed (optimized : Option String) (simplified : Option String)
  deriving DecidableEq, Repr

/-- Method `GeminiLLMClient.generate_search_queries`: on a JSON parse failure
it falls back to three copies of the user query; on any other exception it
raises `LLMError`; on success it fills missing keys with the user query via
`data.get`. -/
def generate_search_queries (user_query : String) (resp : FanoutResponse) :
    Except String SearchQueryVariants :=
  match resp with
  | .raises msg =>
      Except.error ("Failed to generate search queries: " ++ msg)
  | .parseFails =>
      Except.ok ⟨user_query, user_query, user_query⟩
  | .parsed optimized simplified =>
      Except.ok ⟨user_query, optimized.getD user_query, simplified.getD user_query⟩

/-! ## Title filter (`GeminiLLMClient.filter_videos_by_title`) -/

/-- Outcome of the text-model call in `filter_videos_by_title`, including the
JSON decoding of the response: the call raises, the response fails JSON
parsing, or it parses to an object whose `relevant_video_ids` entry is the
given id list (`data.get` defaults it to the empty list). -/
inductive TitleFilterResponse
  | raises (msg : String)
  | parseFails
  | parsed (relevant_video_ids : List String)
  deriving DecidableEq, Repr

/-- Method `GeminiLLMClient.filter_videos_by_title`: returns the model's ids
restricted to valid input ids and truncated to `max_results`; on a JSON parse
failure or any other exception it degrades to the first `max_results` input
ids. An empty input returns early with no model call. -/
def filter_videos_by_title (video_titles : List (String × String))
    (_user_query : String) (max_results : Nat) (resp : TitleFilterResponse) :
    List String :=
  if video_titles.isEmpty then []
  else
    match resp with
    | .parsed relevant_ids =>
        let valid_ids := video_titles.map Prod.fst
        let filtered_ids := relevant_ids.filter (fun vid => decide (vid ∈ valid_ids))
        filtered_ids.take max_results
    | .parseFails => (video_titles.take max_results).map Prod.fst
    | .raises _ => (video_titles.take max_results).map Prod.fst

/-- The application of the title filter inside `ExtractSegmentsUseCase.execute`
(lines 229-235): a pure membership test over the merged search list, falling
back to the first `max_title_filter` videos when the filter selected
nothing. -/
def applyTitleFilter (videos : List Video) (relevant_video_ids : List String)
    (max_title_filter : Nat) : List Video :=
  let filtered_videos :=
    videos.filter (fun v => decide (v.video_id ∈ relevant_video_ids))
  if filtered_videos.isEmpty then videos.take max_title_filter
  else filtered_videos

/-! ## Multi-strategy search (`YouTubeDataAPIClient.search_multi_strategy`) -/

/-- One search strategy dictionary of `search_multi_strategy`. -/
structure Strategy where
  name : String
  order : String
  published_after : Option String
  deriving DecidableEq, Repr

/-- The three strategies built in `search_multi_strategy`; `one_month_ago` is
the timestamp string computed once from the wall clock at stage start. -/
def strategies (one_month_ago : String) : List Strategy :=
  [⟨"relevance", "relevance", none⟩,
   ⟨"date", "date", none⟩,
   ⟨"relevance_recent", "relevance", some one_month_ago⟩]

/-- Dataclass `MultiSearchResult` from
`src/application/interfaces/youtube_searcher.py`; the Python `dict` of
per-strategy counters is modelled as an association list. -/
structure MultiSearchResult where
  videos : List Video
  search_stats : List (String × Nat)
  deriving DecidableEq, Repr

/-- The `strategy_key` f-string of `search_multi_strategy`. -/
def strategyKey (query : String) (s : Strategy) : String :=
  if query.length > 20 then (query.take 20) ++ "..._" ++ s.name
  else query ++ "_" ++ s.name

/-- Python dict assignment `search_stats[strategy_key] = value`. -/
def updateStats : List (String × Nat) → String → Nat → List (String × Nat)
  | [], key, value => [(key, value)]
  | (k, v) :: rest, key, value =>
      if k = key then (k, value) :: rest
      else (k, v) :: updateStats rest key value

/-- The dedup loop body of `search_multi_strategy`: walk one strategy result,
appending each video whose `video_id` has not been seen and recording its
id in the seen set. -/
def addVideos : List Video → List String × List Video → List String × List Video
  | [], st => st
  | v :: rest, (seen, all) =>
      if v.video_id ∈ seen then addVideos rest (seen, all)
      else addVideos rest (v.video_id :: seen, all ++ [v])

/-- The body of the inner strategy loop of `search_multi_strategy`: one
`(query, strategy)` call. The per-call search (`_search_single_strategy`,
wrapping the two YouTube Data API requests, the duration filter and the
`max_results` truncation) is the external input `searchFn`; a `.error`
outcome is the `except Exception` branch, which records a zero counter and
contributes no videos. -/
def searchCallStep (searchFn : String → Strategy → Except String (List Video))
    (q : String) (st : (List String × List Video) × List (String × Nat))
    (s : Strategy) : (List String × List Video) × List (String × Nat) :=
  match searchFn q s with
  | .ok videos =>
      (addVideos videos st.1, updateStats st.2 (strategyKey q s) videos.length)
  | .error _ => (st.1, updateStats st.2 (strategyKey q s) 0)

/-- The body of the outer query loop of `search_multi_strategy`: run the
three strategies for one query. -/
def searchQueryStep (searchFn : String → Strategy → Except String (List Video))
    (one_month_ago : String)
    (st : (List String × List Video) × List (String × Nat)) (q : String) :
    (List String × List Video) × List (String × Nat) :=
  (strategies one_month_ago).foldl (searchCallStep searchFn q) st

/-- Method `YouTubeDataAPIClient.search_multi_strategy`: for every query and
every strategy run one search call, merge results by first occurrence of
`video_id`, and record per-call counters. -/
def search_multi_strategy
    (searchFn : String → Strategy → Except String (List Video))
    (queries : List String) (one_month_ago : String) : MultiSearchResult :=
  let res := queries.foldl (searchQueryStep searchFn one_month_ago) (([], []), [])
  ⟨res.1.2, res.2⟩

/-- The video list one `(query, strategy)` call contributes to the merge: its
result on success, nothing when it raised. -/
def resultsOf (searchFn : String → Strategy → Except String (List Video))
    (q : String) (s : Strategy) : List Video :=
  match searchFn q s with
  | .ok videos => videos
  | .error _ => []

/-- Specification-side merge for comparison with `search_multi_strategy`,
following the spec text: keep the first occurrence of each `video_id`
relative to a set of already-seen ids. -/
def dedupFirstFrom (seen : List String) : List Video → List Video
  | [] => []
  | v :: rest =>
      if v.video_id ∈ seen then dedupFirstFrom seen rest
      else v :: dedupFirstFrom (v.video_id :: seen) rest

/-- The seen set after walking one strategy result (first component of
`addVideos`). -/
def addSeen (seen : List String) : List Video → List String
  | [] => seen
  | v :: rest =>
      if v.video_id ∈ seen then addSeen seen rest
      else addSeen (v.video_id :: seen) rest

/-- The concatenation, in matrix order, of all per-(query, strategy) call
results, a raising call contributing the empty list. -/
def allCallResults (searchFn : String → Strategy → Except String (List Video))
    (queries : List String) (one_month_ago : String) : List Video :=
  queries.flatMap (fun q =>
    (strategies one_month_ago).flatMap (fun s => resultsOf searchFn q s))

/-! ## Refinement stage (`ExtractSegmentsUseCase._refine_with_vlm`) -/

/-- Outcome of one `vlm_client.analyze_video_clip` call. -/
inductive VlmOutcome
  | ok (relative_range : TimeRange) (confidence : ℚ) (summary : String)
  | raises (msg : String)
  deriving DecidableEq, Repr

/-- External outcomes of one refinement run: per candidate index the
`video_extractor.extract_clip` outcome and, per attempt number, the
video-model outcome. -/
structure RefineEnv where
  extract : Nat → Except String Unit
  vlm : Nat → Nat → VlmOutcome

/-- Local constant `stagger_delay = 3.0` of `_refine_with_vlm`. -/
def stagger_delay : ℚ := 3

/-- Local constant `max_retries = 3` of `_refine_with_vlm`. -/
def max_retries : Nat := 3

/-- Local constant `retry_delay = 2.0` of `_refine_with_vlm`. -/
def retry_delay : ℚ := 2

/-- The retry loop of `process_candidate` (`for attempt in range(max_retries)`):
an attempt numbered `attempt > 0` first sleeps `retry_delay * attempt`; an
attempt succeeds when the video model returns and the conversion to absolute
time does not raise; any exception falls through to the next attempt. Returns
the segment of the first successful attempt (if any), the number of
video-model calls made, and the list of retry sleeps performed. -/
def runAttempts (vlm : Nat → VlmOutcome) (clip_start_sec : ℚ) (video : Video) :
    Nat → Nat → Option VideoSegment × Nat × List ℚ
  | _, 0 => (none, 0, [])
  | attempt, remaining + 1 =>
      let sleeps : List ℚ :=
        if attempt > 0 then [retry_delay * (attempt : ℚ)] else []
      match vlm attempt with
      | .ok relative_range confidence summary =>
          match convert_relative_to_absolute clip_start_sec relative_range with
          | .ok absolute_range =>
              (some ⟨video, absolute_range, summary, confidence⟩, 1, sleeps)
          | .error _ =>
              let rest := runAttempts vlm clip_start_sec video (attempt + 1) remaining
              (rest.1, rest.2.1 + 1, sleeps ++ rest.2.2)
      | .raises _ =>
          let rest := runAttempts vlm clip_start_sec video (attempt + 1) remaining
          (rest.1, rest.2.1 + 1, sleeps ++ rest.2.2)

/-- The degraded segment built in the failure branch of `process_candidate`:
the original (unrefined) candidate range, the sentinel summary and
confidence `0.5`. -/
def degradedSegment (video : Video) (estimated_range : TimeRange) : VideoSegment :=
  ⟨video, estimated_range, "（精密分析失敗）", 0.5⟩

/-- Instrumented result of one refinement task. -/
structure TaskTrace where
  segment : VideoSegment
  stagger_sleep : ℚ
  extract_calls : Nat
  vlm_calls : Nat
  retry_sleeps : List ℚ
  deriving DecidableEq, Repr

/-- Worker function `process_candidate` of `_refine_with_vlm`: staggered
start, buffer expansion, one clip extraction, then the video-model retry
loop; every exception path ends in the degraded segment. -/
def process_candidate (cfg : ExtractSegmentsConfig) (env : RefineEnv)
    (index : Nat) (video : Video) (estimated_range : TimeRange) : TaskTrace :=
  let stagger_sleep : ℚ := if index > 0 then (index : ℚ) * stagger_delay else 0
  match estimated_range.with_buffer cfg.buffer_ratio with
  | .error _ =>
      { segment := degradedSegment video estimated_range
        stagger_sleep := stagger_sleep
        extract_calls := 0, vlm_calls := 0, retry_sleeps := [] }
  | .ok buffered_range =>
      match env.extract index with
      | .error _ =>
          { segment := degradedSegment video estimated_range
            stagger_sleep := stagger_sleep
            extract_calls := 1, vlm_calls := 0, retry_sleeps := [] }
      | .ok _ =>
          let r := runAttempts (env.vlm index) buffered_range.start_sec video 0 max_retries
          match r.1 with
          | some seg =>
              { segment := seg, stagger_sleep := stagger_sleep
                extract_calls := 1, vlm_calls := r.2.1, retry_sleeps := r.2.2 }
          | none =>
              { segment := degradedSegment video estimated_range
                stagger_sleep := stagger_sleep
                extract_calls := 1, vlm_calls := r.2.1, retry_sleeps := r.2.2 }

/-- Index ordering on worker results, the key of `results.sort`. -/
def idxLe (a b : Nat × VideoSegment) : Prop := a.1 ≤ b.1

instance : DecidableRel idxLe := fun a b => Nat.decLe a.1 b.1

instance : IsTotal (Nat × VideoSegment) idxLe := ⟨fun a b => Nat.le_total a.1 b.1⟩

instance : IsTrans (Nat × VideoSegment) idxLe := ⟨fun _ _ _ h1 h2 => Nat.le_trans h1 h2⟩

/-- A progress event: phase tag and numeric progress value. -/
abbrev Event := String × ℚ

/-- The per-completion progress events of `_refine_with_vlm`: the `k`-th
completion (1-based, counted by `completed_count` under `results_lock`)
emits `0.6 + 0.35 * k / total`, in both the success and the failure
branch. `c` is the number of completions so far, the second argument the
number still to come. -/
def refineEventsFrom (total : Nat) (c : Nat) : Nat → List Event
  | 0 => []
  | remaining + 1 =>
      ("VLM精密分析", 0.6 + 0.35 * ((c : ℚ) + 1) / (total : ℚ)) ::
        refineEventsFrom total (c + 1) remaining

/-- Method `ExtractSegmentsUseCase._refine_with_vlm`: submit one
`process_candidate` task per candidate, gather `(index, segment)` results in
thread completion order (`completion_order`), sort by index, and return the
segments together with the stage's progress events. -/
def refine_with_vlm (cfg : ExtractSegmentsConfig) (env : RefineEnv)
    (candidates : List Candidate) (completion_order : List Nat) :
    List VideoSegment × List Event :=
  let total := candidates.length
  let results : List (Nat × VideoSegment) :=
    completion_order.filterMap (fun i =>
      (candidates[i]?).map (fun c =>
        (i, (process_candidate cfg env i c.video c.range).segment)))
  let sorted := results.insertionSort idxLe
  let events : List Event :=
    ("VLM精密分析", 0.6) :: refineEventsFrom total 0 total
  (sorted.map Prod.snd, events)

/-! ## Transcript stage (`ExtractSegmentsUseCase._process_videos_parallel`) -/

/-- Outcome of one transcript-stage worker (`_process_single_video` via
`future.result(timeout=120)`): either the call returns a candidate list
(already confidence-filtered inside the worker) or it raises. -/
inductive TranscriptOutcome
  | ok (results : List Candidate)
  | raises (msg : String)
  deriving Repr

/-- Python `pat in s` substring test. -/
def containsSub (s pat : String) : Bool :=
  (s.splitOn pat).length != 1

/-- Mutable state of the `_process_videos_parallel` loop. -/
structure TState where
  candidates : List Candidate
  success : Nat
  no_match : Nat
  no_subtitle : Nat
  errors : Nat
  processed : Nat
  events : List Event

/-- One iteration of the `_process_videos_parallel` result loop: a returning
worker updates the counters and, every 10 completions or at the last one,
emits `0.25 + 0.2 * processed / total`; a raising worker updates the error
counters and `continue`s past the emission. -/
def tStep (total : Nat) (st : TState) (oc : TranscriptOutcome) : TState :=
  match oc with
  | .ok results =>
      let processed := st.processed + 1
      let st' : TState :=
        if results.isEmpty then
          { st with processed := processed, no_match := st.no_match + 1 }
        else
          { st with processed := processed,
                    candidates := st.candidates ++ results,
                    success := st.success + 1 }
      if processed % 10 == 0 || processed == total then
        { st' with events := st'.events ++
            [("字幕分析", 0.25 + 0.2 * (processed : ℚ) / (total : ℚ))] }
      else st'
  | .raises msg =>
      let processed := st.processed + 1
      if containsSub msg.toLower "subtitle" || containsSub msg.toLower "transcript" then
        { st with processed := processed, errors := st.errors + 1,
                  no_subtitle := st.no_subtitle + 1 }
      else
        { st with processed := processed, errors := st.errors + 1 }

/-- Method `ExtractSegmentsUseCase._process_videos_parallel`: the futures
dict is iterated in submission order, so outcomes are consumed in video
order. -/
def process_videos_parallel (outcomes : List TranscriptOutcome) : TState :=
  outcomes.foldl (tStep outcomes.length) ⟨[], 0, 0, 0, 0, 0, []⟩

/-! ## Pipeline orchestrator (`ExtractSegmentsUseCase.execute`) -/

/-- Python `list(dict.fromkeys(l))`: drop duplicates keeping first
occurrences, relative to a seen set. -/
def dedupKeysFrom (seen : List String) : List String → List String
  | [] => []
  | q :: rest =>
      if q ∈ seen then dedupKeysFrom seen rest
      else q :: dedupKeysFrom (q :: seen) rest

/-- The VLM-skip branch of `execute`: use the candidate tuple verbatim as a
segment. -/
def toSegment (c : Candidate) : VideoSegment :=
  ⟨c.video, c.range, c.summary, c.confidence⟩

/-- Confidence-descending order, the key of
`sorted(candidates, key=lambda x: x[2], reverse=True)`. -/
def confDesc (a b : Candidate) : Prop := b.confidence ≤ a.confidence

instance : DecidableRel confDesc :=
  fun a b => inferInstanceAs (Decidable (b.confidence ≤ a.confidence))

instance : IsTotal Candidate confDesc := ⟨fun a b => le_total b.confidence a.confidence⟩

instance : IsTrans Candidate confDesc := ⟨fun _ _ _ h1 h2 => le_trans h2 h1⟩

/-- External outcomes of one full `execute` run. -/
structure ExecEnv where
  fanout : FanoutResponse
  one_month_ago : String
  searchFn : String → Strategy → Except String (List Video)
  titleFilter : TitleFilterResponse
  transcript : Nat → TranscriptOutcome
  refine : RefineEnv
  completion_order : List Nat

/-- The stages of `execute` after a successful query fan-out; returns the
full progress-event trace and the final segments. -/
def executeStages (cfg : ExtractSegmentsConfig) (env : ExecEnv)
    (user_query : String) (query_variants : SearchQueryVariants) :
    List Event × List VideoSegment :=
  let ev0 : List Event := [("クエリ最適化", 0.05), ("クエリ最適化", 0.08)]
  let search_queries :=
    [query_variants.original, query_variants.optimized, query_variants.simplified]
  let unique_queries := dedupKeysFrom [] search_queries
  let ev1 := ev0 ++ [("YouTube検索", 0.1)]
  let search_result := search_multi_strategy env.searchFn unique_queries env.one_month_ago
  let videos := search_result.videos
  let ev2 := ev1 ++ [("YouTube検索", 0.2)]
  if videos.isEmpty then
    (ev2 ++ [("YouTube検索", 1.0)], [])
  else
    let ev3 := ev2 ++ [("タイトルフィルタ", 0.22)]
    let max_title_filter := min 10 cfg.max_search_results
    let video_titles := videos.map (fun v => (v.video_id, v.title))
    let relevant_video_ids :=
      filter_videos_by_title video_titles user_query max_title_filter env.titleFilter
    let filtered_videos := applyTitleFilter videos relevant_video_ids max_title_filter
    let ev4 := ev3 ++ [("タイトルフィルタ", 0.24)]
    let ev5 := ev4 ++ [("字幕分析", 0.25)]
    let tstate :=
      process_videos_parallel ((List.range filtered_videos.length).map env.transcript)
    let ev6 := ev5 ++ tstate.events ++ [("字幕分析", 0.5)]
    let candidates :=
      (tstate.candidates.insertionSort confDesc).take cfg.max_final_results
    if candidates.isEmpty then
      (ev6 ++ [("字幕分析", 1.0)], [])
    else
      let ev7 := ev6 ++ [("字幕分析", 0.55)]
      if cfg.enable_vlm_refinement then
        let ev8 := ev7 ++ [("VLM精密分析", 0.6)]
        let refined := refine_with_vlm cfg env.refine candidates env.completion_order
        (ev8 ++ refined.2 ++ [("完了", 1.0)], refined.1)
      else
        (ev7 ++ [("VLM精密分析", 0.9), ("完了", 1.0)], candidates.map toSegment)

/-- Method `ExtractSegmentsUseCase.execute`: the query fan-out is the only
stage whose exception escapes to the caller; everything after it is total.
The returned pair is the progress-event trace and the final segments (the
`SearchResult` minus its wall-clock processing time). -/
def execute (cfg : ExtractSegmentsConfig) (env : ExecEnv) (user_query : String) :
    Except String (List Event × List VideoSegment) :=
  match generate_search_queries user_query env.fanout with
  | .error e => Except.error e
  | .ok query_variants => Except.ok (executeStages cfg env user_query query_variants)

/-! ## Clip validation and concatenation (`src/infrastructure/ytdlp_extractor.py`) -/

/-- Filesystem and probe oracle for `is_valid_mp4`: existence and size of a
path, and the outcome of the `ffprobe` subprocess (`.ok b` with `b` the test
`"video" in stdout`; `.error` when the subprocess raises). -/
structure Fs where
  pathExists : String → Bool
  fileSize : String → Nat
  probe : String → Except String Bool

/-- Function `is_valid_mp4`: a file is valid when it exists, its size is at
least 1000 bytes, and the `ffprobe` call returns output containing
`"video"`; a probe exception yields `false`. -/
def is_valid_mp4 (fs : Fs) (file_path : String) : Bool :=
  if !fs.pathExists file_path then false
  else if fs.fileSize file_path < 1000 then false
  else
    match fs.probe file_path with
    | .ok hasVideoStream => hasVideoStream
    | .error _ => false

/-- Filesystem action taken by `concat_clips`. -/
inductive ConcatAction
  | nothing
  | copied (src dst : String)
  | concatenated (files : List String)
  deriving DecidableEq, Repr

/-- External outcomes for one `concat_clips` run: the filesystem, the
stream-copy ffmpeg subprocess (`.ok returncode`, `.error` on timeout) and
the re-encode ffmpeg subprocess (run with `check=True`, so nonzero exit and
timeout both surface as `.error`). -/
structure ConcatEnv where
  fs : Fs
  ffmpegConcatCopy : Except String Int
  ffmpegReencode : Except String Unit

/-- Method `YtdlpVideoExtractor.concat_clips`: filter the inputs through
`p.exists() and is_valid_mp4(p)`; zero valid files fail, one valid file is
copied to the output, two or more go through the concat demuxer with a
re-encode fallback. The manifest-file bookkeeping is elided; the chosen
action is reported as a `ConcatAction`. -/
def concat_clips (env : ConcatEnv) (clip_paths : List String) (output_path : String) :
    Except String Bool × ConcatAction :=
  if clip_paths.isEmpty then (Except.ok false, ConcatAction.nothing)
  else
    let valid_clips :=
      clip_paths.filter (fun p => env.fs.pathExists p && is_valid_mp4 env.fs p)
    match valid_clips with
    | [] => (Except.ok false, ConcatAction.nothing)
    | [p] => (Except.ok true, ConcatAction.copied p output_path)
    | ps =>
        match env.ffmpegConcatCopy with
        | .error m =>
            (Except.error ("Timeout concatenating clips: " ++ m),
             ConcatAction.concatenated ps)
        | .ok returncode =>
            if returncode != 0 then
              match env.ffmpegReencode with
              | .error m =>
                  (Except.error ("ffmpeg concat error: " ++ m),
                   ConcatAction.concatenated ps)
              | .ok _ => (Except.ok true, ConcatAction.concatenated ps)
            else (Except.ok true, ConcatAction.concatenated ps)

/-! ## Verification-side predicates -/

/-- A list of progress events is monotone with all progress values inside
`[lo, hi]`. -/
def ProgressBounded (lo hi : ℚ) (evs : List Event) : Prop :=
  List.Chain' (· ≤ ·) (evs.map Prod.snd) ∧ ∀ e ∈ evs, lo ≤ e.2 ∧ e.2 ≤ hi

/-! ## Concrete inputs used by witnesses and counterexamples -/

/-- A concrete video. -/
def videoA : Video := ⟨"vidA", "title A", "ch", 100, "2025-01-01T00:00:00Z", "thumbA"⟩

/-- Another concrete video. -/
def videoB : Video := ⟨"vidB", "title B", "ch", 200, "2025-01-02T00:00:00Z", "thumbB"⟩

/-- A concrete candidate on `videoA`. -/
def candidateA : Candidate := ⟨videoA, ⟨10, 20⟩, 0.9, "sumA"⟩

/-- A concrete candidate on `videoB`. -/
def candidateB : Candidate := ⟨videoB, ⟨30, 40⟩, 0.7, "sumB"⟩

/-- A refinement environment whose extractor always fails. -/
def refineEnvFail : RefineEnv :=
  ⟨fun _ => Except.error "range missing", fun _ _ => VlmOutcome.raises "quota"⟩

/-- A refinement environment where extraction and the video model succeed. -/
def refineEnvOk : RefineEnv :=
  ⟨fun _ => Except.ok (), fun _ _ => VlmOutcome.ok ⟨2, 5⟩ 0.8 "refined"⟩

/-- A search oracle returning no videos for every call. -/
def searchFnEmpty : String → Strategy → Except String (List Video) :=
  fun _ _ => Except.ok []

/-- A pipeline environment whose fan-out call raises. -/
def execEnvRaise : ExecEnv :=
  ⟨FanoutResponse.raises "boom", "2025-09-12T00:00:00Z", searchFnEmpty,
   TitleFilterResponse.parseFails, fun _ => TranscriptOutcome.ok [], refineEnvOk, []⟩

/-- A pipeline environment whose fan-out response fails JSON parsing. -/
def execEnvFallback : ExecEnv := { execEnvRaise with fanout := FanoutResponse.parseFails }

/-- A filesystem with one existing 1000-byte file with a video stream at
every path. -/
def fsSmall : Fs := ⟨fun _ => true, fun _ => 1000, fun _ => Except.ok true⟩

/-- A filesystem with no existing files. -/
def fsNone : Fs := ⟨fun _ => false, fun _ => 0, fun _ => Except.error "probe failed"⟩

/-- A concat environment over `fsSmall`. -/
def concatEnvSmall : ConcatEnv := ⟨fsSmall, Except.ok 0, Except.ok ()⟩

/-- A concat environment over `fsNone`. -/
def concatEnvNone : ConcatEnv := ⟨fsNone, Except.ok 0, Except.ok ()⟩

/-! ## Supporting lemmas: time arithmetic -/

theorem mkTimeRange_ok (s e : ℚ) (h0 : 0 ≤ s) (hlt : s < e) :
    mkTimeRange s e = Except.ok ⟨s, e⟩ := by
  unfold mkTimeRange
  rw [if_neg (by linarith), if_neg (by linarith)]

/-- C4: for every `clip_start ≥ 0` and valid relative range `TimeRange(a, b)`,
`convert_relative_to_absolute` returns exactly `TimeRange(clip_start + a,
clip_start + b)`, and that result is itself a valid `TimeRange`. -/
theorem C4_convert_exact (c : ℚ) (rel : TimeRange)
    (hc : 0 ≤ c) (hrel : rel.Valid) :
    convert_relative_to_absolute c rel =
      Except.ok ⟨c + rel.start_sec, c + rel.end_sec⟩ ∧
    TimeRange.Valid ⟨c + rel.start_sec, c + rel.end_sec⟩ := by
  obtain ⟨h0, hlt⟩ := hrel
  refine ⟨mkTimeRange_ok _ _ (by linarith) (by linarith), ?_, ?_⟩
  · show (0 : ℚ) ≤ c + rel.start_sec
    linarith
  · show c + rel.start_sec < c + rel.end_sec
    linarith

/-- Witness for C4 at `clip_start = 5`, `relative = TimeRange(1, 2)`. -/
theorem C4_witness :
    convert_relative_to_absolute 5 ⟨1, 2⟩ = Except.ok ⟨5 + 1, 5 + 2⟩ ∧
    TimeRange.Valid ⟨5 + 1, 5 + 2⟩ :=
  C4_convert_exact 5 ⟨1, 2⟩ (by norm_num) ⟨by norm_num, by norm_num⟩

/-- C7: for every valid range and buffer ratio `r ∈ (0, 1]`, `with_buffer r`
returns the range expanded on each side by `r` times the original duration
with the start clamped to zero and the end unclamped, the expanded duration is
at least the original duration, and the expanded start is nonnegative. -/
theorem C7_buffer_monotone (t : TimeRange) (r : ℚ)
    (ht : t.Valid) (hr0 : 0 < r) (hr1 : r ≤ 1) :
    t.with_buffer r =
      Except.ok ⟨max 0 (t.start_sec - t.duration_sec * r),
                 t.end_sec + t.duration_sec * r⟩ ∧
    t.duration_sec ≤
      (⟨max 0 (t.start_sec - t.duration_sec * r),
        t.end_sec + t.duration_sec * r⟩ : TimeRange).duration_sec ∧
    (0 : ℚ) ≤ max 0 (t.start_sec - t.duration_sec * r) := by
  obtain ⟨h0, hlt⟩ := ht
  have hdur : 0 < t.duration_sec := by
    unfold TimeRange.duration_sec; linarith
  have hbuf : 0 < t.duration_sec * r := mul_pos hdur hr0
  have hmax : max 0 (t.start_sec - t.duration_sec * r) ≤ t.start_sec :=
    max_le h0 (by linarith)
  refine ⟨?_, ?_, le_max_left _ _⟩
  · unfold TimeRange.with_buffer
    exact mkTimeRange_ok _ _ (le_max_left _ _)
      (lt_of_le_of_lt hmax (by unfold TimeRange.duration_sec at hbuf ⊢; linarith))
  · unfold TimeRange.duration_sec at hbuf hmax ⊢
    show t.end_sec - t.start_sec ≤
      t.end_sec + (t.end_sec - t.start_sec) * r -
        max 0 (t.start_sec - (t.end_sec - t.start_sec) * r)
    linarith

/-- Witness for C7 at `TimeRange(1, 3)`, `r = 1/2`. -/
theorem C7_witness :
    (⟨1, 3⟩ : TimeRange).with_buffer (1/2) =
      Except.ok ⟨max 0 ((1 : ℚ) - (⟨1, 3⟩ : TimeRange).duration_sec * (1/2)),
                 (3 : ℚ) + (⟨1, 3⟩ : TimeRange).duration_sec * (1/2)⟩ ∧
    (⟨1, 3⟩ : TimeRange).duration_sec ≤
      (⟨max 0 ((1 : ℚ) - (⟨1, 3⟩ : TimeRange).duration_sec * (1/2)),
        (3 : ℚ) + (⟨1, 3⟩ : TimeRange).duration_sec * (1/2)⟩ : TimeRange).duration_sec ∧
    (0 : ℚ) ≤ max 0 ((1 : ℚ) - (⟨1, 3⟩ : TimeRange).duration_sec * (1/2)) :=
  C7_buffer_monotone ⟨1, 3⟩ (1/2) ⟨by norm_num, by norm_num⟩ (by norm_num) (by norm_num)

/-! ## Query fan-out: C1 -/

/-- C1 counterexample: when the fan-out model call itself raises, the
pipeline does raise — `execute` propagates the `LLMError` instead of
falling back to three copies of the original query. -/
theorem C1_counterexample :
    execute {} execEnvRaise "query" =
      Except.error "Failed to generate search queries: boom" := rfl

/-- C1 (amended): only a JSON-parse failure of the fan-out response is
recovered with the `{original, original, original}` fallback, after which
`execute` proceeds through the remaining stages; when the fan-out model call
itself raises, `generate_search_queries` raises `LLMError` and `execute`
propagates it to the caller. -/
theorem C1_amended_fanout_fallback (q m : String) (cfg : ExtractSegmentsConfig)
    (env : ExecEnv) (henv : env.fanout = FanoutResponse.parseFails) :
    generate_search_queries q FanoutResponse.parseFails = Except.ok ⟨q, q, q⟩ ∧
    generate_search_queries q (FanoutResponse.raises m) =
      Except.error ("Failed to generate search queries: " ++ m) ∧
    execute cfg env q = Except.ok (executeStages cfg env q ⟨q, q, q⟩) := by
  refine ⟨rfl, rfl, ?_⟩
  unfold execute
  rw [henv]
  rfl

/-- Witness for C1 on a parse-failure environment. -/
theorem C1_witness :
    generate_search_queries "query" FanoutResponse.parseFails =
      Except.ok ⟨"query", "query", "query"⟩ ∧
    generate_search_queries "query" (FanoutResponse.raises "boom") =
      Except.error ("Failed to generate search queries: " ++ "boom") ∧
    execute {} execEnvFallback "query" =
      Except.ok (executeStages {} execEnvFallback "query" ⟨"query", "query", "query"⟩) :=
  C1_amended_fanout_fallback "query" "boom" {} execEnvFallback rfl

/-! ## Clip concatenation: C8 -/

theorem is_valid_mp4_eq_true_iff (fs : Fs) (p : String) :
    is_valid_mp4 fs p = true ↔
      fs.pathExists p = true ∧ 1000 ≤ fs.fileSize p ∧ fs.probe p = Except.ok true := by
  unfold is_valid_mp4
  by_cases hex : fs.pathExists p
  · by_cases hsz : fs.fileSize p < 1000
    · simp [hex, hsz]
    · have hsz' : 1000 ≤ fs.fileSize p := Nat.not_lt.mp hsz
      rcases hpr : fs.probe p with e | b
      · simp [hex, hsz, hpr]
      · simp [hex, hsz, hsz', hpr]
  · simp [hex]

/-- C8 counterexample: a 1000-byte file is below 1 KiB (1024 bytes) yet
passes `is_valid_mp4` and is kept (and copied) by `concat_clips`: the size
threshold in the code is 1000 bytes, not 1 KiB. -/
theorem C8_counterexample :
    is_valid_mp4 fsSmall "clip0.mp4" = true ∧
    fsSmall.fileSize "clip0.mp4" < 1024 ∧
    concat_clips concatEnvSmall ["clip0.mp4"] "out.mp4" =
      (Except.ok true, ConcatAction.copied "clip0.mp4" "out.mp4") := by
  refine ⟨rfl, by norm_num [fsSmall], rfl⟩

/-- C8 (amended): a file is kept exactly when it exists, has size at least
1000 bytes (not 1 KiB = 1024), and the subprocess probe reports a video
stream; with zero valid files `concat_clips` returns failure, and with
exactly one valid file it copies that file to the output path and returns
success. -/
theorem C8_concat_validation (env : ConcatEnv) (clip_paths : List String) (out : String) :
    (∀ p, p ∈ clip_paths.filter
        (fun q => env.fs.pathExists q && is_valid_mp4 env.fs q) ↔
      (p ∈ clip_paths ∧ env.fs.pathExists p = true ∧
        1000 ≤ env.fs.fileSize p ∧ env.fs.probe p = Except.ok true)) ∧
    (clip_paths.filter (fun q => env.fs.pathExists q && is_valid_mp4 env.fs q) = [] →
      concat_clips env clip_paths out = (Except.ok false, ConcatAction.nothing)) ∧
    (∀ p, clip_paths.filter (fun q => env.fs.pathExists q && is_valid_mp4 env.fs q) = [p] →
      concat_clips env clip_paths out = (Except.ok true, ConcatAction.copied p out)) := by
  refine ⟨?_, ?_, ?_⟩
  · intro p
    rw [List.mem_filter]
    constructor
    · rintro ⟨hmem, hpred⟩
      rw [Bool.and_eq_true] at hpred
      exact ⟨hmem, ((is_valid_mp4_eq_true_iff env.fs p).mp hpred.2)⟩
    · rintro ⟨hmem, hval⟩
      rw [Bool.and_eq_true]
      exact ⟨hmem, hval.1, (is_valid_mp4_eq_true_iff env.fs p).mpr hval⟩
  · intro hfil
    unfold concat_clips
    by_cases hemp : clip_paths.isEmpty
    · simp [hemp]
    · simp only [hemp, if_false, Bool.false_eq_true, hfil]
  · intro p hfil
    have hne : clip_paths.isEmpty = false := by
      cases hcp : clip_paths with
      | nil => rw [hcp] at hfil; simp at hfil
      | cons a l => rfl
    unfold concat_clips
    simp only [hne, Bool.false_eq_true, if_false, hfil]

/-- Witness for C8: one valid file is copied; with no valid files the call
fails. -/
theorem C8_witness :
    concat_clips concatEnvSmall ["clip0.mp4"] "out.mp4" =
      (Except.ok true, ConcatAction.copied "clip0.mp4" "out.mp4") ∧
    concat_clips concatEnvNone ["clip0.mp4"] "out.mp4" =
      (Except.ok false, ConcatAction.nothing) := by
  constructor
  · exact (C8_concat_validation concatEnvSmall ["clip0.mp4"] "out.mp4").2.2 "clip0.mp4" rfl
  · exact (C8_concat_validation concatEnvNone ["clip0.mp4"] "out.mp4").2.1 rfl

/-! ## Title filter: C10 -/

/-- C10: the orchestrator applies the title filter as a pure membership test
over the merged search list: the surviving videos form a sublist of the
search list (so they keep their first-discovery order), and the result is
invariant under any reordering (or repetition) of the id list the model
returned. -/
theorem C10_title_filter_membership (videos : List Video) (ids : List String) (m : Nat) :
    (applyTitleFilter videos ids m).Sublist videos ∧
    ∀ ids' : List String, (∀ x, x ∈ ids ↔ x ∈ ids') →
      applyTitleFilter videos ids m = applyTitleFilter videos ids' m := by
  constructor
  · simp only [applyTitleFilter]
    split
    · exact List.take_sublist _ _
    · exact List.filter_sublist _
  · intro ids' hiff
    unfold applyTitleFilter
    have heq : (fun v : Video => decide (v.video_id ∈ ids)) =
        (fun v : Video => decide (v.video_id ∈ ids')) := by
      funext v
      exact decide_eq_decide.mpr (hiff v.video_id)
    rw [heq]

/-- Witness for C10: two videos, filter ids in reversed / repeated order. -/
theorem C10_witness :
    (applyTitleFilter [videoA, videoB] ["vidB", "vidA"] 10).Sublist [videoA, videoB] ∧
    applyTitleFilter [videoA, videoB] ["vidB", "vidA"] 10 =
      applyTitleFilter [videoA, videoB] ["vidA", "vidB", "vidB"] 10 := by
  have h := C10_title_filter_membership [videoA, videoB] ["vidB", "vidA"] 10
  refine ⟨h.1, h.2 ["vidA", "vidB", "vidB"] ?_⟩
  intro x
  simp only [List.mem_cons, List.not_mem_nil, or_false]
  tauto

/-! ## Multi-strategy search: C6 -/

theorem addVideos_eq (l : List Video) :
    ∀ seen all, addVideos l (seen, all) = (addSeen seen l, all ++ dedupFirstFrom seen l) := by
  induction l with
  | nil => intro seen all; simp [addVideos, addSeen, dedupFirstFrom]
  | cons v rest ih =>
      intro seen all
      by_cases h : v.video_id ∈ seen
      · simp [addVideos, addSeen, dedupFirstFrom, h, ih]
      · simp [addVideos, addSeen, dedupFirstFrom, h, ih]

theorem addSeen_append (l₁ l₂ : List Video) :
    ∀ seen, addSeen seen (l₁ ++ l₂) = addSeen (addSeen seen l₁) l₂ := by
  induction l₁ with
  | nil => intro seen; simp [addSeen]
  | cons v rest ih =>
      intro seen
      by_cases h : v.video_id ∈ seen
      · simp [addSeen, h, ih]
      · simp [addSeen, h, ih]

theorem dedupFirstFrom_append (l₁ l₂ : List Video) :
    ∀ seen, dedupFirstFrom seen (l₁ ++ l₂) =
      dedupFirstFrom seen l₁ ++ dedupFirstFrom (addSeen seen l₁) l₂ := by
  induction l₁ with
  | nil => intro seen; simp [dedupFirstFrom, addSeen]
  | cons v rest ih =>
      intro seen
      by_cases h : v.video_id ∈ seen
      · simp [dedupFirstFrom, addSeen, h, ih]
      · simp [dedupFirstFrom, addSeen, h, ih]

theorem searchCallFold_fst (searchFn : String → Strategy → Except String (List Video))
    (q : String) (strats : List Strategy) :
    ∀ st : (List String × List Video) × List (String × Nat),
      (strats.foldl (searchCallStep searchFn q) st).1 =
        (addSeen st.1.1 (strats.flatMap (resultsOf searchFn q)),
         st.1.2 ++ dedupFirstFrom st.1.1 (strats.flatMap (resultsOf searchFn q))) := by
  induction strats with
  | nil => intro st; simp [addSeen, dedupFirstFrom]
  | cons s rest ih =>
      intro st
      rw [List.foldl_cons, ih]
      rcases hs : searchFn q s with e | videos
      · have hres : resultsOf searchFn q s = [] := by simp [resultsOf, hs]
        simp [searchCallStep, hs, hres]
      · have hres : resultsOf searchFn q s = videos := by simp [resultsOf, hs]
        have hstep : (searchCallStep searchFn q st s).1 = addVideos videos st.1 := by
          simp [searchCallStep, hs]
        rw [hstep]
        have haddv : addVideos videos st.1 =
            (addSeen st.1.1 videos, st.1.2 ++ dedupFirstFrom st.1.1 videos) :=
          addVideos_eq videos st.1.1 st.1.2
        rw [haddv]
        simp only [hres, List.flatMap_cons]
        rw [addSeen_append, dedupFirstFrom_append, List.append_assoc]

theorem searchQueryFold_fst (searchFn : String → Strategy → Except String (List Video))
    (one_month_ago : String) (queries : List String) :
    ∀ st : (List String × List Video) × List (String × Nat),
      (queries.foldl (searchQueryStep searchFn one_month_ago) st).1 =
        (addSeen st.1.1 (queries.flatMap (fun q =>
           (strategies one_month_ago).flatMap (resultsOf searchFn q))),
         st.1.2 ++ dedupFirstFrom st.1.1 (queries.flatMap (fun q =>
           (strategies one_month_ago).flatMap (resultsOf searchFn q)))) := by
  induction queries with
  | nil => intro st; simp [addSeen, dedupFirstFrom]
  | cons q rest ih =>
      intro st
      rw [List.foldl_cons]
      have hq : (searchQueryStep searchFn one_month_ago st q).1 =
          (addSeen st.1.1 ((strategies one_month_ago).flatMap (resultsOf searchFn q)),
           st.1.2 ++
             dedupFirstFrom st.1.1 ((strategies one_month_ago).flatMap (resultsOf searchFn q))) := by
        unfold searchQueryStep
        exact searchCallFold_fst searchFn q (strategies one_month_ago) st
      rw [ih]
      rw [hq]
      simp only [List.flatMap_cons]
      rw [addSeen_append, dedupFirstFrom_append, List.append_assoc]

theorem dedupFirstFrom_nodup (l : List Video) :
    ∀ seen, ((dedupFirstFrom seen l).map Video.video_id).Nodup ∧
      ∀ id ∈ (dedupFirstFrom seen l).map Video.video_id, id ∉ seen := by
  induction l with
  | nil => intro seen; simp [dedupFirstFrom]
  | cons v rest ih =>
      intro seen
      by_cases h : v.video_id ∈ seen
      · simpa [dedupFirstFrom, h] using ih seen
      · have ih' := ih (v.video_id :: seen)
        have hd : dedupFirstFrom seen (v :: rest) =
            v :: dedupFirstFrom (v.video_id :: seen) rest := by
          simp [dedupFirstFrom, h]
        rw [hd]
        simp only [List.map_cons]
        constructor
        · rw [List.nodup_cons]
          refine ⟨?_, ih'.1⟩
          intro hmem
          exact absurd (List.mem_cons_self v.video_id seen) (ih'.2 _ hmem)
        · intro id hid
          rcases List.mem_cons.mp hid with heq | hmem
          · subst heq; exact h
          · intro hseen
            exact (ih'.2 id hmem) (List.mem_cons_of_mem _ hseen)

/-- C6: the merged result of the multi-strategy search keeps exactly the
first occurrence of each `video_id` across the queries-by-strategies matrix
in matrix order (a raising call contributing no results and not aborting the
stage), so the merged list contains each `video_id` at most once and each
video sits at the position of its first discovery. -/
theorem C6_dedup_first_occurrence
    (searchFn : String → Strategy → Except String (List Video))
    (queries : List String) (one_month_ago : String) :
    (search_multi_strategy searchFn queries one_month_ago).videos =
      dedupFirstFrom [] (allCallResults searchFn queries one_month_ago) ∧
    ((search_multi_strategy searchFn queries one_month_ago).videos.map Video.video_id).Nodup := by
  have h := searchQueryFold_fst searchFn one_month_ago queries (([], []), [])
  have hv : (search_multi_strategy searchFn queries one_month_ago).videos =
      dedupFirstFrom [] (allCallResults searchFn queries one_month_ago) := by
    have h0 : (search_multi_strategy searchFn queries one_month_ago).videos =
        (queries.foldl (searchQueryStep searchFn one_month_ago) (([], []), [])).1.2 := rfl
    rw [h0, h]
    simp [allCallResults]
  exact ⟨hv, hv ▸ (dedupFirstFrom_nodup _ []).1⟩

/-! ## Refinement stage: C2, C3, C5 -/

theorem filterMap_eq_map_of_forall {α β : Type} {f : α → Option β} {g : α → β} :
    ∀ l : List α, (∀ a ∈ l, f a = some (g a)) → l.filterMap f = l.map g := by
  intro l
  induction l with
  | nil => intro _; rfl
  | cons a rest ih =>
      intro h
      simp [List.filterMap_cons, h a (List.mem_cons_self a rest),
        ih (fun x hx => h x (List.mem_cons_of_mem a hx))]

theorem eq_of_snd_determined (F : Nat → VideoSegment) :
    ∀ l₁ l₂ : List (Nat × VideoSegment),
      (∀ x ∈ l₁, x.2 = F x.1) → (∀ x ∈ l₂, x.2 = F x.1) →
      l₁.map Prod.fst = l₂.map Prod.fst → l₁ = l₂ := by
  intro l₁
  induction l₁ with
  | nil =>
      intro l₂ _ _ hmap
      cases l₂ with
      | nil => rfl
      | cons b r => simp at hmap
  | cons a r ih =>
      intro l₂ h1 h2 hmap
      cases l₂ with
      | nil => simp at hmap
      | cons b r₂ =>
          simp only [List.map_cons, List.cons.injEq] at hmap
          have ha : a.2 = F a.1 := h1 a (List.mem_cons_self a r)
          have hb : b.2 = F b.1 := h2 b (List.mem_cons_self b r₂)
          have hab : a = b := by
            have hsnd : a.2 = b.2 := by rw [ha, hb, hmap.1]
            exact Prod.ext hmap.1 hsnd
          rw [hab, ih r₂ (fun x hx => h1 x (List.mem_cons_of_mem a hx))
            (fun x hx => h2 x (List.mem_cons_of_mem b hx)) hmap.2]

theorem runAttempts_calls_le (vlm : Nat → VlmOutcome) (cs : ℚ) (video : Video) :
    ∀ remaining attempt, (runAttempts vlm cs video attempt remaining).2.1 ≤ remaining := by
  intro remaining
  induction remaining with
  | zero => intro attempt; simp [runAttempts]
  | succ rem ih =>
      intro attempt
      simp only [runAttempts]
      cases hv : vlm attempt with
      | ok rel conf summary =>
          cases hc : convert_relative_to_absolute cs rel with
          | error e =>
              simp only [hc]
              have := ih (attempt + 1)
              omega
          | ok a => simp [hc]
      | raises m =>
          have := ih (attempt + 1)
          simp only
          omega

theorem runAttempts_none_of_raises (vlm : Nat → VlmOutcome) (cs : ℚ) (video : Video) :
    ∀ remaining attempt,
      (∀ a, attempt ≤ a → a < attempt + remaining → ∃ m, vlm a = VlmOutcome.raises m) →
      (runAttempts vlm cs video attempt remaining).1 = none := by
  intro remaining
  induction remaining with
  | zero => intro attempt _; simp [runAttempts]
  | succ rem ih =>
      intro attempt h
      obtain ⟨m, hm⟩ := h attempt (Nat.le_refl _) (by omega)
      simp only [runAttempts, hm]
      exact ih (attempt + 1) (fun a h1 h2 => h a (by omega) (by omega))

theorem runAttempts_sleeps_succ (vlm : Nat → VlmOutcome) (cs : ℚ) (video : Video) :
    ∀ remaining attempt,
      (runAttempts vlm cs video (attempt + 1) remaining).2.2 =
        (List.range (runAttempts vlm cs video (attempt + 1) remaining).2.1).map
          (fun a => retry_delay * ((attempt + 1 + a : ℕ) : ℚ)) := by
  intro remaining
  induction remaining with
  | zero => intro attempt; simp [runAttempts]
  | succ rem ih =>
      intro attempt
      have hpos : attempt + 1 > 0 := Nat.succ_pos attempt
      simp only [runAttempts, hpos, if_true]
      cases hv : vlm (attempt + 1) with
      | ok rel conf summary =>
          cases hc : convert_relative_to_absolute cs rel with
          | ok a =>
              simp only [hc]
              simp [List.range_succ]
          | error e =>
              simp only [hc, List.singleton_append]
              rw [ih (attempt + 1), List.range_succ_eq_map, List.map_cons, List.map_map,
                List.cons.injEq]
              exact ⟨by push_cast; try ring,
                List.map_congr_left fun a _ => by
                  simp only [Function.comp_apply]; push_cast; try ring⟩
      | raises m =>
          simp only [List.singleton_append]
          rw [ih (attempt + 1), List.range_succ_eq_map, List.map_cons, List.map_map,
            List.cons.injEq]
          exact ⟨by push_cast; try ring,
            List.map_congr_left fun a _ => by
              simp only [Function.comp_apply]; push_cast; try ring⟩

theorem runAttempts_sleeps_zero (vlm : Nat → VlmOutcome) (cs : ℚ) (video : Video) :
    ∀ remaining,
      (runAttempts vlm cs video 0 remaining).2.2 =
        ((List.range (runAttempts vlm cs video 0 remaining).2.1).drop 1).map
          (fun (a : ℕ) => retry_delay * (a : ℚ)) := by
  intro remaining
  cases remaining with
  | zero => simp [runAttempts]
  | succ rem =>
      have hs := runAttempts_sleeps_succ vlm cs video rem 0
      simp only [Nat.zero_add] at hs
      simp only [runAttempts]
      cases hv : vlm 0 with
      | ok rel conf summary =>
          cases hc : convert_relative_to_absolute cs rel with
          | ok a =>
              simp only [hc]
              simp [List.range_succ]
          | error e =>
              simp only [hc, gt_iff_lt, lt_self_iff_false, if_false, List.nil_append]
              rw [hs, List.range_succ_eq_map, List.drop_succ_cons, List.drop_zero,
                List.map_map]
              apply List.map_congr_left
              intro a _
              simp only [Function.comp_apply]
              push_cast
              ring
      | raises m =>
          simp only [gt_iff_lt, lt_self_iff_false, if_false, List.nil_append]
          rw [hs, List.range_succ_eq_map, List.drop_succ_cons, List.drop_zero,
            List.map_map]
          apply List.map_congr_left
          intro a _
          simp only [Function.comp_apply]
          push_cast
          ring

theorem process_candidate_wb_error (cfg : ExtractSegmentsConfig) (env : RefineEnv)
    (index : Nat) (video : Video) (estimated_range : TimeRange) (e : String)
    (hwb : estimated_range.with_buffer cfg.buffer_ratio = Except.error e) :
    process_candidate cfg env index video estimated_range =
      { segment := degradedSegment video estimated_range
        stagger_sleep := if index > 0 then (index : ℚ) * stagger_delay else 0
        extract_calls := 0, vlm_calls := 0, retry_sleeps := [] } := by
  unfold process_candidate
  rw [hwb]

theorem process_candidate_extract_error (cfg : ExtractSegmentsConfig) (env : RefineEnv)
    (index : Nat) (video : Video) (estimated_range : TimeRange)
    (buffered : TimeRange) (e : String)
    (hwb : estimated_range.with_buffer cfg.buffer_ratio = Except.ok buffered)
    (hex : env.extract index = Except.error e) :
    process_candidate cfg env index video estimated_range =
      { segment := degradedSegment video estimated_range
        stagger_sleep := if index > 0 then (index : ℚ) * stagger_delay else 0
        extract_calls := 1, vlm_calls := 0, retry_sleeps := [] } := by
  unfold process_candidate
  rw [hwb, hex]

theorem process_candidate_run_trace (cfg : ExtractSegmentsConfig) (env : RefineEnv)
    (index : Nat) (video : Video) (estimated_range : TimeRange)
    (buffered : TimeRange) (u : Unit)
    (hwb : estimated_range.with_buffer cfg.buffer_ratio = Except.ok buffered)
    (hex : env.extract index = Except.ok u) :
    (process_candidate cfg env index video estimated_range).extract_calls = 1 ∧
    (process_candidate cfg env index video estimated_range).vlm_calls =
      (runAttempts (env.vlm index) buffered.start_sec video 0 max_retries).2.1 ∧
    (process_candidate cfg env index video estimated_range).retry_sleeps =
      (runAttempts (env.vlm index) buffered.start_sec video 0 max_retries).2.2 ∧
    ((runAttempts (env.vlm index) buffered.start_sec video 0 max_retries).1 = none →
      (process_candidate cfg env index video estimated_range).segment =
        degradedSegment video estimated_range) ∧
    (∀ seg, (runAttempts (env.vlm index) buffered.start_sec video 0 max_retries).1 = some seg →
      (process_candidate cfg env index video estimated_range).segment = seg) := by
  unfold process_candidate
  rw [hwb, hex]
  cases hr : (runAttempts (env.vlm index) buffered.start_sec video 0 max_retries).1 with
  | none => simp [hr]
  | some seg => simp [hr]

theorem process_candidate_degraded (cfg : ExtractSegmentsConfig) (env : RefineEnv)
    (index : Nat) (video : Video) (estimated_range : TimeRange)
    (hfail : (env.extract index).isOk = false ∨
      ∀ a, a < max_retries → ∃ m, env.vlm index a = VlmOutcome.raises m) :
    (process_candidate cfg env index video estimated_range).segment =
      degradedSegment video estimated_range := by
  rcases hwb : estimated_range.with_buffer cfg.buffer_ratio with e | buffered
  · rw [process_candidate_wb_error cfg env index video estimated_range e hwb]
  · rcases hex : env.extract index with e | u
    · rw [process_candidate_extract_error cfg env index video estimated_range buffered e hwb hex]
    · rcases hfail with hf | hf
      · rw [hex] at hf
        simp [Except.isOk, Except.toBool] at hf
      · obtain ⟨_, _, _, hnone, _⟩ :=
          process_candidate_run_trace cfg env index video estimated_range buffered u hwb hex
        exact hnone (runAttempts_none_of_raises _ _ _ max_retries 0
          (fun a h1 h2 => hf a (by omega)))

theorem refine_with_vlm_fst_eq (cfg : ExtractSegmentsConfig) (env : RefineEnv)
    (candidates : List Candidate) (completion_order : List Nat)
    (hperm : completion_order.Perm (List.range candidates.length)) :
    (refine_with_vlm cfg env candidates completion_order).1 =
      candidates.enum.map (fun p =>
        (process_candidate cfg env p.1 p.2.video p.2.range).segment) := by
  set n := candidates.length with hn
  set F : Nat → VideoSegment := fun i =>
    ((candidates[i]?).map (fun c =>
      (process_candidate cfg env i c.video c.range).segment)).getD
      (degradedSegment ⟨"", "", "", 0, "", ""⟩ ⟨0, 1⟩) with hF
  set f : Nat → Option (Nat × VideoSegment) := fun i =>
    (candidates[i]?).map (fun c =>
      (i, (process_candidate cfg env i c.video c.range).segment)) with hf
  have hmemf : ∀ i ∈ List.range n, f i = some (i, F i) := by
    intro i hi
    rw [List.mem_range] at hi
    rw [hf, hF]
    simp [List.getElem?_eq_getElem hi]
  have htarget : (List.range n).filterMap f = (List.range n).map (fun i => (i, F i)) :=
    filterMap_eq_map_of_forall _ hmemf
  have hresultsperm : (completion_order.filterMap f).Perm
      ((List.range n).map (fun i => (i, F i))) := by
    have h1 := hperm.filterMap f
    rw [htarget] at h1
    exact h1
  have hsortedperm : ((completion_order.filterMap f).insertionSort idxLe).Perm
      ((List.range n).map (fun i => (i, F i))) :=
    (List.perm_insertionSort idxLe _).trans hresultsperm
  have hsorted₁ : List.Sorted idxLe ((completion_order.filterMap f).insertionSort idxLe) :=
    List.sorted_insertionSort idxLe _
  have htargetkeys : (((List.range n).map (fun i => (i, F i))).map Prod.fst) = List.range n := by
    rw [List.map_map]
    exact List.map_id _
  have hsortedtarget : List.Sorted (· ≤ ·)
      ((((List.range n).map (fun i => (i, F i))).map Prod.fst)) := by
    rw [htargetkeys]
    exact List.pairwise_le_range n
  have hsorted₁keys : List.Sorted (· ≤ ·)
      (((completion_order.filterMap f).insertionSort idxLe).map Prod.fst) :=
    List.Pairwise.map Prod.fst (fun a b hab => hab) hsorted₁
  have hkeys : ((completion_order.filterMap f).insertionSort idxLe).map Prod.fst =
      (((List.range n).map (fun i => (i, F i))).map Prod.fst) :=
    List.eq_of_perm_of_sorted (hsortedperm.map Prod.fst) hsorted₁keys hsortedtarget
  have hdet₂ : ∀ x ∈ (List.range n).map (fun i => (i, F i)), x.2 = F x.1 := by
    intro x hx
    obtain ⟨i, hi, rfl⟩ := List.mem_map.mp hx
    rfl
  have hdet₁ : ∀ x ∈ (completion_order.filterMap f).insertionSort idxLe, x.2 = F x.1 :=
    fun x hx => hdet₂ x (hsortedperm.mem_iff.mp hx)
  have hlists : (completion_order.filterMap f).insertionSort idxLe =
      (List.range n).map (fun i => (i, F i)) :=
    eq_of_snd_determined F _ _ hdet₁ hdet₂ hkeys
  have hfinal : (refine_with_vlm cfg env candidates completion_order).1 =
      ((completion_order.filterMap f).insertionSort idxLe).map Prod.snd := rfl
  rw [hfinal, hlists, List.map_map]
  apply List.ext_getElem
  · simp [hn, List.enum_length]
  · intro i h1 h2
    have hi : i < candidates.length := by
      have := h2
      rw [List.length_map, List.enum_length] at this
      exact this
    simp only [List.getElem_map, Function.comp_apply, List.getElem_range, List.getElem_enum]
    rw [hF]
    simp [List.getElem?_eq_getElem hi]

/-- C2: for every refinement run over a permutation-complete completion
order, the output has exactly one segment per candidate, and every candidate
whose clip extraction failed or whose video-model attempts all raised yields
the degraded segment: the original candidate range, the sentinel summary and
confidence exactly `0.5`. -/
theorem C2_degraded_segments (cfg : ExtractSegmentsConfig) (env : RefineEnv)
    (candidates : List Candidate) (completion_order : List Nat)
    (hperm : completion_order.Perm (List.range candidates.length)) :
    (refine_with_vlm cfg env candidates completion_order).1.length = candidates.length ∧
    ∀ i c, candidates[i]? = some c →
      ((env.extract i).isOk = false ∨
        ∀ a, a < max_retries → ∃ m, env.vlm i a = VlmOutcome.raises m) →
      (refine_with_vlm cfg env candidates completion_order).1[i]? =
        some ⟨c.video, c.range, "（精密分析失敗）", 0.5⟩ := by
  have heq := refine_with_vlm_fst_eq cfg env candidates completion_order hperm
  constructor
  · rw [heq, List.length_map, List.enum_length]
  · intro i c hc hfail
    rw [heq, List.getElem?_map, List.getElem?_enum, hc]
    simp only [Option.map_some']
    rw [process_candidate_degraded cfg env i c.video c.range hfail]
    rfl

/-- Witness for C2: one candidate whose extraction fails yields one degraded
segment. -/
theorem C2_witness :
    (refine_with_vlm {} refineEnvFail [candidateA] [0]).1.length = [candidateA].length ∧
    (refine_with_vlm {} refineEnvFail [candidateA] [0]).1[0]? =
      some ⟨candidateA.video, candidateA.range, "（精密分析失敗）", 0.5⟩ := by
  have h := C2_degraded_segments {} refineEnvFail [candidateA] [0] (by decide)
  exact ⟨h.1, h.2 0 candidateA rfl (Or.inl rfl)⟩

/-- C3: for every refinement run whose completion order is a permutation of
the task indices, the output segments are in candidate order — the result of
sorting the completion-ordered `(index, segment)` pairs by index — and hence
independent of the order in which the parallel tasks complete. -/
theorem C3_order_preserved (cfg : ExtractSegmentsConfig) (env : RefineEnv)
    (candidates : List Candidate) (completion_order : List Nat)
    (hperm : completion_order.Perm (List.range candidates.length)) :
    (refine_with_vlm cfg env candidates completion_order).1 =
      candidates.enum.map (fun p =>
        (process_candidate cfg env p.1 p.2.video p.2.range).segment) :=
  refine_with_vlm_fst_eq cfg env candidates completion_order hperm

/-- Witness for C3: two candidates completing in reversed order still yield
segments in candidate order. -/
theorem C3_witness :
    (refine_with_vlm {} refineEnvOk [candidateA, candidateB] [1, 0]).1 =
      ([candidateA, candidateB]).enum.map (fun p =>
        (process_candidate {} refineEnvOk p.1 p.2.video p.2.range).segment) :=
  C3_order_preserved {} refineEnvOk [candidateA, candidateB] [1, 0] (by decide)

/-- C5: in every refinement task the extractor is called at most once and
only the video-model call is retried, with at most `max_retries = 3`
attempts and retry sleeps `retry_delay * attempt` for attempts `1, 2, ...`
(no sleep before the first attempt, so the delays are 0, 2, 4 seconds);
an extractor failure is never retried and immediately yields the degraded
segment with zero video-model calls. -/
theorem C5_retry_policy (cfg : ExtractSegmentsConfig) (env : RefineEnv)
    (index : Nat) (video : Video) (estimated_range : TimeRange) :
    (process_candidate cfg env index video estimated_range).extract_calls ≤ 1 ∧
    (process_candidate cfg env index video estimated_range).vlm_calls ≤ max_retries ∧
    (process_candidate cfg env index video estimated_range).retry_sleeps =
      ((List.range (process_candidate cfg env index video estimated_range).vlm_calls).drop 1).map
        (fun (a : ℕ) => retry_delay * (a : ℚ)) ∧
    (∀ e, env.extract index = Except.error e →
      (process_candidate cfg env index video estimated_range).vlm_calls = 0 ∧
      (process_candidate cfg env index video estimated_range).segment =
        degradedSegment video estimated_range) := by
  rcases hwb : estimated_range.with_buffer cfg.buffer_ratio with e | buffered
  · rw [process_candidate_wb_error cfg env index video estimated_range e hwb]
    exact ⟨Nat.zero_le 1, Nat.zero_le max_retries, rfl, fun _ _ => ⟨rfl, rfl⟩⟩
  · rcases hex : env.extract index with e | u
    · rw [process_candidate_extract_error cfg env index video estimated_range buffered e hwb hex]
      exact ⟨Nat.le_refl 1, Nat.zero_le max_retries, rfl, fun _ _ => ⟨rfl, rfl⟩⟩
    · obtain ⟨hec, hvc, hrs, _, _⟩ :=
        process_candidate_run_trace cfg env index video estimated_range buffered u hwb hex
      refine ⟨Nat.le_of_eq hec, ?_, ?_, ?_⟩
      · rw [hvc]
        exact runAttempts_calls_le (env.vlm index) buffered.start_sec video max_retries 0
      · rw [hrs, hvc]
        exact runAttempts_sleeps_zero (env.vlm index) buffered.start_sec video max_retries
      · intro e' he'
        exact absurd he' (by simp)

/-- Witness for C5: a task whose extractor fails makes no video-model call
and returns the degraded segment. -/
theorem C5_witness :
    (process_candidate {} refineEnvFail 0 videoA ⟨10, 20⟩).extract_calls ≤ 1 ∧
    (process_candidate {} refineEnvFail 0 videoA ⟨10, 20⟩).vlm_calls ≤ max_retries ∧
    (process_candidate {} refineEnvFail 0 videoA ⟨10, 20⟩).retry_sleeps =
      ((List.range (process_candidate {} refineEnvFail 0 videoA ⟨10, 20⟩).vlm_calls).drop 1).map
        (fun (a : ℕ) => retry_delay * (a : ℚ)) ∧
    ((process_candidate {} refineEnvFail 0 videoA ⟨10, 20⟩).vlm_calls = 0 ∧
      (process_candidate {} refineEnvFail 0 videoA ⟨10, 20⟩).segment =
        degradedSegment videoA ⟨10, 20⟩) := by
  obtain ⟨h1, h2, h3, h4⟩ := C5_retry_policy {} refineEnvFail 0 videoA ⟨10, 20⟩
  exact ⟨h1, h2, h3, h4 "range missing" rfl⟩

/-! ## Progress events: C9 -/

theorem progressBounded_nil (lo hi : ℚ) : ProgressBounded lo hi [] :=
  ⟨List.chain'_nil, by simp⟩

theorem progressBounded_singleton (lo hi : ℚ) (ph : String) (p : ℚ)
    (h1 : lo ≤ p) (h2 : p ≤ hi) : ProgressBounded lo hi [(ph, p)] := by
  refine ⟨by simp, ?_⟩
  intro e he
  rw [List.mem_singleton] at he
  subst he
  exact ⟨h1, h2⟩

theorem progressBounded_append {lo m hi : ℚ} {l₁ l₂ : List Event}
    (h₁ : ProgressBounded lo m l₁) (h₂ : ProgressBounded m hi l₂)
    (hlm : lo ≤ m) (hmh : m ≤ hi) : ProgressBounded lo hi (l₁ ++ l₂) := by
  obtain ⟨hc₁, hb₁⟩ := h₁
  obtain ⟨hc₂, hb₂⟩ := h₂
  constructor
  · rw [List.map_append, List.chain'_append]
    refine ⟨hc₁, hc₂, ?_⟩
    intro x hx y hy
    have hxm : x ∈ l₁.map Prod.snd := List.mem_of_mem_getLast? hx
    have hym : y ∈ l₂.map Prod.snd := List.mem_of_mem_head? hy
    obtain ⟨ex, hex, hx2⟩ := List.mem_map.mp hxm
    obtain ⟨ey, hey, hy2⟩ := List.mem_map.mp hym
    calc x = ex.2 := hx2.symm
    _ ≤ m := (hb₁ ex hex).2
    _ ≤ ey.2 := (hb₂ ey hey).1
    _ = y := hy2
  · intro e he
    rcases List.mem_append.mp he with h | h
    · exact ⟨(hb₁ e h).1, le_trans (hb₁ e h).2 hmh⟩
    · exact ⟨le_trans hlm (hb₂ e h).1, (hb₂ e h).2⟩

theorem progressBounded_weaken {lo hi lo' hi' : ℚ} {l : List Event}
    (h : ProgressBounded lo hi l) (h1 : lo' ≤ lo) (h2 : hi ≤ hi') :
    ProgressBounded lo' hi' l :=
  ⟨h.1, fun e he => ⟨le_trans h1 (h.2 e he).1, le_trans (h.2 e he).2 h2⟩⟩

theorem progress_div_mono (c : ℚ) (hc : 0 ≤ c) (p q t : ℚ)
    (hpq : p ≤ q) (ht : 0 ≤ t) : c * p / t ≤ c * q / t := by
  rw [div_eq_mul_inv, div_eq_mul_inv]
  exact mul_le_mul_of_nonneg_right (mul_le_mul_of_nonneg_left hpq hc)
    (inv_nonneg.mpr ht)

theorem progress_div_le (c : ℚ) (hc : 0 ≤ c) (p t : ℚ)
    (hp : 0 ≤ p) (hpt : p ≤ t) : c * p / t ≤ c := by
  rcases eq_or_lt_of_le (le_trans hp hpt) with ht | ht
  · rw [← ht]
    simp [hc]
  · rw [div_le_iff₀ ht]
    calc c * p ≤ c * t := mul_le_mul_of_nonneg_left hpt hc
    _ = c * t := rfl

theorem progress_div_nonneg (c p t : ℚ) (hc : 0 ≤ c) (hp : 0 ≤ p) (ht : 0 ≤ t) :
    0 ≤ c * p / t :=
  div_nonneg (mul_nonneg hc hp) ht

theorem tStep_processed (total : Nat) (st : TState) (oc : TranscriptOutcome) :
    (tStep total st oc).processed = st.processed + 1 := by
  cases oc <;> simp only [tStep] <;> (repeat' split) <;> rfl

theorem tStep_events (total : Nat) (st : TState) (oc : TranscriptOutcome) :
    (tStep total st oc).events = st.events ∨
    (tStep total st oc).events = st.events ++
      [("字幕分析", 0.25 + 0.2 * ((st.processed + 1 : ℕ) : ℚ) / (total : ℚ))] := by
  cases oc with
  | ok results =>
      simp only [tStep]
      by_cases hmod : ((st.processed + 1) % 10 == 0 || (st.processed + 1) == total) = true
      · right
        by_cases hres : results.isEmpty <;> simp [hres, hmod]
      · left
        by_cases hres : results.isEmpty <;> simp [hres, hmod]
  | raises msg =>
      left
      simp only [tStep]
      split <;> rfl

theorem tfold_invariant (ocs : List TranscriptOutcome) :
    ∀ (total : Nat) (st : TState),
      ProgressBounded 0.25 (0.25 + 0.2 * (st.processed : ℚ) / (total : ℚ)) st.events →
      (ocs.foldl (tStep total) st).processed = st.processed + ocs.length ∧
      ProgressBounded 0.25
        (0.25 + 0.2 * (((ocs.foldl (tStep total) st).processed : ℚ)) / (total : ℚ))
        (ocs.foldl (tStep total) st).events := by
  induction ocs with
  | nil =>
      intro total st h
      exact ⟨rfl, h⟩
  | cons oc rest ih =>
      intro total st h
      rw [List.foldl_cons]
      have hp := tStep_processed total st oc
      have hmono : 0.25 + 0.2 * ((st.processed : ℚ)) / (total : ℚ) ≤
          0.25 + 0.2 * (((st.processed + 1 : ℕ) : ℚ)) / (total : ℚ) := by
        have := progress_div_mono 0.2 (by norm_num) (st.processed : ℚ)
          ((st.processed + 1 : ℕ) : ℚ) (total : ℚ) (by push_cast; linarith) (by positivity)
        linarith
      have h' : ProgressBounded 0.25
          (0.25 + 0.2 * (((tStep total st oc).processed : ℚ)) / (total : ℚ))
          (tStep total st oc).events := by
        rw [hp]
        rcases tStep_events total st oc with hev | hev
        · rw [hev]
          exact progressBounded_weaken h (le_refl _) hmono
        · rw [hev]
          have hlo : (0.25 : ℚ) ≤ 0.25 + 0.2 * ((st.processed : ℚ)) / (total : ℚ) := by
            have := progress_div_nonneg 0.2 (st.processed : ℚ) (total : ℚ)
              (by norm_num) (by positivity) (by positivity)
            linarith
          exact progressBounded_append h
            (progressBounded_singleton _ _ _ _ hmono (le_refl _)) hlo hmono
      have hres := ih total (tStep total st oc) h'
      refine ⟨?_, hres.2⟩
      rw [hres.1, hp, List.length_cons]
      omega

theorem transcript_events_bounded (ocs : List TranscriptOutcome) :
    ProgressBounded 0.25 0.45 (process_videos_parallel ocs).events := by
  have hinit : ProgressBounded 0.25
      (0.25 + 0.2 * ((TState.processed ⟨[], 0, 0, 0, 0, 0, []⟩ : ℕ) : ℚ) /
        ((ocs.length : ℕ) : ℚ)) (⟨[], 0, 0, 0, 0, 0, []⟩ : TState).events :=
    progressBounded_nil _ _
  have h := tfold_invariant ocs ocs.length ⟨[], 0, 0, 0, 0, 0, []⟩ hinit
  unfold process_videos_parallel
  refine progressBounded_weaken h.2 (le_refl _) ?_
  rw [h.1]
  have := progress_div_le 0.2 (by norm_num) ((0 + ocs.length : ℕ) : ℚ) (ocs.length : ℚ)
    (by positivity) (by push_cast; linarith)
  linarith

theorem refineEventsFrom_bounded (total : Nat) :
    ∀ remaining c, c + remaining ≤ total →
      ProgressBounded (0.6 + 0.35 * ((c : ℚ) + 1) / (total : ℚ)) 0.95
        (refineEventsFrom total c remaining) := by
  intro remaining
  induction remaining with
  | zero => intro c _; exact progressBounded_nil _ _
  | succ r ih =>
      intro c hct
      have hct0 : c + 1 ≤ total := by omega
      have hct1 : (c : ℚ) + 1 ≤ (total : ℚ) := by exact_mod_cast hct0
      have hmono : 0.6 + 0.35 * ((c : ℚ) + 1) / (total : ℚ) ≤
          0.6 + 0.35 * (((c + 1 : ℕ) : ℚ) + 1) / (total : ℚ) := by
        have := progress_div_mono 0.35 (by norm_num) ((c : ℚ) + 1)
          (((c + 1 : ℕ) : ℚ) + 1) (total : ℚ) (by push_cast; linarith) (by positivity)
        linarith
      have hhi : 0.6 + 0.35 * ((c : ℚ) + 1) / (total : ℚ) ≤ 0.95 := by
        have := progress_div_le 0.35 (by norm_num) ((c : ℚ) + 1) (total : ℚ)
          (by positivity) hct1
        linarith
      have hih := ih (c + 1) (by omega)
      constructor
      · show List.Chain' (· ≤ ·) ((refineEventsFrom total c (r + 1)).map Prod.snd)
        simp only [refineEventsFrom, List.map_cons]
        rw [List.chain'_cons']
        refine ⟨?_, hih.1⟩
        intro y hy
        obtain ⟨ey, hey, hy2⟩ := List.mem_map.mp (List.mem_of_mem_head? hy)
        calc 0.6 + 0.35 * ((c : ℚ) + 1) / (total : ℚ)
            ≤ 0.6 + 0.35 * (((c + 1 : ℕ) : ℚ) + 1) / (total : ℚ) := hmono
        _ ≤ ey.2 := (hih.2 ey hey).1
        _ = y := hy2
      · intro e he
        simp only [refineEventsFrom, List.mem_cons] at he
        rcases he with rfl | he
        · exact ⟨le_refl _, hhi⟩
        · exact ⟨le_trans hmono (hih.2 e he).1, (hih.2 e he).2⟩

theorem refine_events_bounded (cfg : ExtractSegmentsConfig) (env : RefineEnv)
    (candidates : List Candidate) (completion_order : List Nat) :
    ProgressBounded 0.6 0.95 ((refine_with_vlm cfg env candidates completion_order).2) := by
  have hev : (refine_with_vlm cfg env candidates completion_order).2 =
      ("VLM精密分析", (0.6 : ℚ)) ::
        refineEventsFrom candidates.length 0 candidates.length := rfl
  rw [hev]
  have hih := refineEventsFrom_bounded candidates.length candidates.length 0 (by omega)
  constructor
  · simp only [List.map_cons]
    rw [List.chain'_cons']
    refine ⟨?_, hih.1⟩
    intro y hy
    obtain ⟨ey, hey, hy2⟩ := List.mem_map.mp (List.mem_of_mem_head? hy)
    have h1 : (0.6 : ℚ) ≤ 0.6 + 0.35 * ((0 : ℚ) + 1) / (candidates.length : ℚ) := by
      have := progress_div_nonneg 0.35 ((0 : ℚ) + 1) (candidates.length : ℚ)
        (by norm_num) (by norm_num) (by positivity)
      linarith
    calc (0.6 : ℚ) ≤ 0.6 + 0.35 * ((0 : ℚ) + 1) / (candidates.length : ℚ) := h1
    _ ≤ ey.2 := by
        have := (hih.2 ey hey).1
        push_cast at this ⊢
        linarith
    _ = y := hy2
  · intro e he
    rcases List.mem_cons.mp he with rfl | he
    · exact ⟨le_refl _, by norm_num⟩
    · refine ⟨?_, (hih.2 e he).2⟩
      have h1 := (hih.2 e he).1
      have h2 : (0 : ℚ) ≤ 0.35 * ((0 : ℚ) + 1) / (candidates.length : ℚ) :=
        progress_div_nonneg 0.35 ((0 : ℚ) + 1) (candidates.length : ℚ)
          (by norm_num) (by norm_num) (by positivity)
      push_cast at h1
      linarith

theorem progressBounded_pair (lo hi : ℚ) (ph₁ ph₂ : String) (p₁ p₂ : ℚ)
    (h1 : lo ≤ p₁) (h2 : p₁ ≤ p₂) (h3 : p₂ ≤ hi) :
    ProgressBounded lo hi [(ph₁, p₁), (ph₂, p₂)] := by
  constructor
  · simp [List.chain'_cons, h2]
  · intro e he
    rcases List.mem_cons.mp he with rfl | he
    · exact ⟨h1, le_trans h2 h3⟩
    · rcases List.mem_cons.mp he with rfl | he
      · exact ⟨le_trans h1 h2, h3⟩
      · simp at he

theorem executeStages_events (cfg : ExtractSegmentsConfig) (env : ExecEnv)
    (user_query : String) (qv : SearchQueryVariants) :
    ProgressBounded 0.05 1 (executeStages cfg env user_query qv).1 ∧
    (((executeStages cfg env user_query qv).1).map Prod.snd).getLast? = some 1 := by
  have h01 : ProgressBounded 0.05 0.08
      [("クエリ最適化", (0.05 : ℚ)), ("クエリ最適化", 0.08)] :=
    progressBounded_pair 0.05 0.08 _ _ _ _ (le_refl _) (by norm_num) (le_refl _)
  have h02 : ProgressBounded 0.05 0.1
      ([("クエリ最適化", (0.05 : ℚ)), ("クエリ最適化", 0.08)] ++
        [("YouTube検索", 0.1)]) :=
    progressBounded_append h01
      (progressBounded_singleton 0.08 0.1 _ _ (by norm_num) (le_refl _))
      (by norm_num) (by norm_num)
  have h03 : ProgressBounded 0.05 0.2
      (([("クエリ最適化", (0.05 : ℚ)), ("クエリ最適化", 0.08)] ++
         [("YouTube検索", 0.1)]) ++ [("YouTube検索", 0.2)]) :=
    progressBounded_append h02
      (progressBounded_singleton 0.1 0.2 _ _ (by norm_num) (le_refl _))
      (by norm_num) (by norm_num)
  have hA : ProgressBounded 0.05 1
      ((([("クエリ最適化", (0.05 : ℚ)), ("クエリ最適化", 0.08)] ++
          [("YouTube検索", 0.1)]) ++ [("YouTube検索", 0.2)]) ++
        [("YouTube検索", 1.0)]) :=
    progressBounded_append h03
      (progressBounded_singleton 0.2 1 _ _ (by norm_num) (by norm_num))
      (by norm_num) (by norm_num)
  have h04 : ProgressBounded 0.05 0.22
      (((([("クエリ最適化", (0.05 : ℚ)), ("クエリ最適化", 0.08)] ++
           [("YouTube検索", 0.1)]) ++ [("YouTube検索", 0.2)]) ++
         [("タイトルフィルタ", 0.22)])) :=
    progressBounded_append h03
      (progressBounded_singleton 0.2 0.22 _ _ (by norm_num) (le_refl _))
      (by norm_num) (by norm_num)
  have h05 : ProgressBounded 0.05 0.24
      (((([("クエリ最適化", (0.05 : ℚ)), ("クエリ最適化", 0.08)] ++
           [("YouTube検索", 0.1)]) ++ [("YouTube検索", 0.2)]) ++
         [("タイトルフィルタ", 0.22)]) ++
        [("タイトルフィルタ", 0.24)]) :=
    progressBounded_append h04
      (progressBounded_singleton 0.22 0.24 _ _ (by norm_num) (le_refl _))
      (by norm_num) (by norm_num)
  have h06 : ProgressBounded 0.05 0.25
      ((((([("クエリ最適化", (0.05 : ℚ)), ("クエリ最適化", 0.08)] ++
           [("YouTube検索", 0.1)]) ++ [("YouTube検索", 0.2)]) ++
         [("タイトルフィルタ", 0.22)]) ++
        [("タイトルフィルタ", 0.24)]) ++
       [("字幕分析", 0.25)]) :=
    progressBounded_append h05
      (progressBounded_singleton 0.24 0.25 _ _ (by norm_num) (le_refl _))
      (by norm_num) (by norm_num)
  have hone : (1.0 : ℚ) = 1 := by norm_num
  simp only [executeStages]
  split
  · refine ⟨hA, ?_⟩
    simp [List.getLast?_append, hone]
  · split
    · refine ⟨?_, ?_⟩
      · exact progressBounded_append
          (progressBounded_append
            (progressBounded_append h06 (transcript_events_bounded _)
              (by norm_num) (by norm_num))
            (progressBounded_singleton 0.45 0.5 _ _ (by norm_num) (by norm_num))
            (by norm_num) (by norm_num))
          (progressBounded_singleton 0.5 1 _ _ (by norm_num) (by norm_num))
          (by norm_num) (by norm_num)
      · dsimp only
        rw [List.map_append, List.getLast?_append]
        norm_num
    · split
      · refine ⟨?_, ?_⟩
        · exact progressBounded_append
            (progressBounded_append
              (progressBounded_append
                (progressBounded_append
                  (progressBounded_append
                    (progressBounded_append h06 (transcript_events_bounded _)
                      (by norm_num) (by norm_num))
                    (progressBounded_singleton 0.45 0.5 _ _ (by norm_num) (by norm_num))
                    (by norm_num) (by norm_num))
                  (progressBounded_singleton 0.5 0.55 _ _ (by norm_num) (by norm_num))
                  (by norm_num) (by norm_num))
                (progressBounded_singleton 0.55 0.6 _ _ (by norm_num) (by norm_num))
                (by norm_num) (by norm_num))
              (refine_events_bounded cfg env.refine _ env.completion_order)
              (by norm_num) (by norm_num))
            (progressBounded_singleton 0.95 1 _ _ (by norm_num) (by norm_num))
            (by norm_num) (by norm_num)
        · dsimp only
          rw [List.map_append, List.getLast?_append]
          norm_num
      · refine ⟨?_, ?_⟩
        · exact progressBounded_append
            (progressBounded_append
              (progressBounded_append
                (progressBounded_append h06 (transcript_events_bounded _)
                  (by norm_num) (by norm_num))
                (progressBounded_singleton 0.45 0.5 _ _ (by norm_num) (by norm_num))
                (by norm_num) (by norm_num))
              (progressBounded_singleton 0.5 0.55 _ _ (by norm_num) (by norm_num))
              (by norm_num) (by norm_num))
            (progressBounded_pair 0.55 1 _ _ _ _ (by norm_num) (by norm_num) (by norm_num))
            (by norm_num) (by norm_num)
        · dsimp only
          rw [List.map_append, List.getLast?_append]
          norm_num

/-- C9: in every run of `execute` that returns, the sequence of numeric
progress values passed to the progress callback is non-decreasing, and the
final event carries progress exactly `1.0`, on every exit path (empty search
results, empty candidates, refinement enabled, refinement skipped). -/
theorem C9_progress_monotone (cfg : ExtractSegmentsConfig) (env : ExecEnv)
    (q : String) (events : List Event) (segments : List VideoSegment)
    (h : execute cfg env q = Except.ok (events, segments)) :
    List.Chain' (· ≤ ·) (events.map Prod.snd) ∧
    (events.map Prod.snd).getLast? = some 1 := by
  unfold execute at h
  cases hg : generate_search_queries q env.fanout with
  | error e =>
      simp only [hg] at h
      exact absurd h (by simp)
  | ok qv =>
      simp only [hg] at h
      injection h with h2
      have hev : events = (executeStages cfg env q qv).1 := (congrArg Prod.fst h2).symm
      rw [hev]
      have hx := executeStages_events cfg env q qv
      exact ⟨hx.1.1, hx.2⟩

/-- Witness for C9 on a concrete run with empty search results. -/
theorem C9_witness :
    ∃ ev segs, execute {} execEnvFallback "q" = Except.ok (ev, segs) ∧
      List.Chain' (· ≤ ·) (ev.map Prod.snd) ∧
      (ev.map Prod.snd).getLast? = some 1 := by
  have h : execute ({} : ExtractSegmentsConfig) execEnvFallback "q" =
      Except.ok ((executeStages {} execEnvFallback "q" ⟨"q", "q", "q"⟩).1,
                 (executeStages {} execEnvFallback "q" ⟨"q", "q", "q"⟩).2) := rfl
  obtain ⟨h1, h2⟩ := C9_progress_monotone {} execEnvFallback "q" _ _ h
  exact ⟨_, _, h, h1, h2⟩

end PinPoint
